import Mathlib

/-!
Verification of the NeXifyAI assistant repository (TypeScript sources under
src/): a shallow embedding of the task registry (src/task-manager.ts), the
learning registry (src/learning-manager.ts), the run-polling client
(src/client.ts) and the message-processing orchestrator (src/agent.ts),
together with proofs settling the frozen claims about them.

Modelling conventions:
* JavaScript `Map` objects are association lists `List (String × α)`;
  `Map.set` replaces in place (keeping insertion order) or appends, exactly
  as the JS runtime does.
* `Date` values are millisecond counts (`Nat`).  A value that has passed
  through JSON serialization is a string; the dynamic typing is modelled by
  `DateVal` (`num` = a live `Date`, `raw` = its serialized string form).
  The ISO-8601 rendering of a date is modelled by the decimal rendering of
  its millisecond count (`dateToString` / `parseDateString`), which shares
  the property that matters: parsing inverts printing.
* Nondeterministic inputs of the code (`Date.now()`, generated identifiers,
  results of remote API calls) are explicit parameters.
* JS numbers appear in three roles: integer counters (`Nat`), exact ratios
  (`ℚ`, where only sign and zero-ness of the value matter to the claims),
  and the average-completion-time cell which can become `Infinity`/`NaN`
  and is therefore modelled by `JSNum`.
-/

namespace NexifyAI

/-! ### Dynamic date values and their JSON round trip -/

/-- A JS value sitting in a date-typed field: either a live `Date`
(millisecond count) or the string a `Date` becomes under JSON
serialization. -/
inductive DateVal where
  | num (ms : Nat)
  | raw (s : String)
deriving DecidableEq, Repr

/-- Decimal digit to character. -/
def digitToChar : Nat → Char
  | 0 => '0' | 1 => '1' | 2 => '2' | 3 => '3' | 4 => '4'
  | 5 => '5' | 6 => '6' | 7 => '7' | 8 => '8' | _ => '9'

/-- Character to decimal digit (codepoint minus 48). -/
def charToDigit (c : Char) : Nat := c.toNat - 48

/-- Little-endian decimal digits of `n` (fuel-driven so that it reduces). -/
def natDigitsLE : Nat → Nat → List Char
  | 0, _ => []
  | fuel + 1, n => if n = 0 then [] else digitToChar (n % 10) :: natDigitsLE fuel (n / 10)

/-- Decimal rendering of a millisecond count; stands in for
`Date.prototype.toISOString` (all that matters is injectivity plus a
matching parser). -/
def dateToString (n : Nat) : String := if n = 0 then "0" else ⟨(natDigitsLE (n + 1) n).reverse⟩

/-- Value of a decimal digit string. -/
def parseDigits (l : List Char) : Nat := l.foldl (fun a c => a * 10 + charToDigit c) 0

/-- Parse a serialized date string back to a millisecond count; stands in
for `new Date(isoString)`. -/
def parseDateString (s : String) : Nat := parseDigits s.toList

/-- JSON serialization of a date-typed field: a live `Date` becomes its
string form, a string stays a string. -/
def dvSer : DateVal → DateVal
  | .num n => .raw (dateToString n)
  | .raw s => .raw s

/-- `new Date(v)`: parse a string back to a date; a live date is kept. -/
def dvParse : DateVal → DateVal
  | .num n => .num n
  | .raw s => .num (parseDateString s)

/-- JS truthiness of a date-typed field: `Date` objects are truthy, strings
are truthy iff nonempty. -/
def dvTruthy : DateVal → Bool
  | .num _ => true
  | .raw s => if s = "" then false else true

/-- `getTime()` of a date field; registry tasks produced by `createTask`
or by a top-level import always hold `num` values here. -/
def dvTime : DateVal → Nat
  | .num n => n
  | .raw _ => 0

/-- Is the field a live (numeric) date? -/
def dvIsNum : DateVal → Bool
  | .num _ => true
  | .raw _ => false

/-! ### Association-list stores (JS `Map` objects) -/

/-- `Map.get`. -/
def getEntry {α : Type} : List (String × α) → String → Option α
  | [], _ => none
  | (k', v) :: t, k => if k' = k then some v else getEntry t k

/-- `Map.set`: replace in place if the key exists (JS maps keep the
original insertion position), otherwise append. -/
def setEntry {α : Type} : List (String × α) → String → α → List (String × α)
  | [], k, v => [(k, v)]
  | (k', v') :: t, k, v => if k' = k then (k, v) :: t else (k', v') :: setEntry t k v

/-- `Array.from(map.values())`: values in insertion order. -/
def valuesOf {α : Type} (s : List (String × α)) : List α := s.map Prod.snd

/-- The keys of the store are pairwise distinct (an invariant of every JS
`Map`). -/
def NodupKeys {α : Type} (s : List (String × α)) : Prop := (s.map Prod.fst).Nodup

/-! ### Task data model (src/types.ts) -/

inductive TaskStatus where
  | pending | inProgress | completed | failed | cancelled
deriving DecidableEq, Repr

inductive TaskPriority where
  | low | medium | high | critical
deriving DecidableEq, Repr

inductive TaskCategory where
  | development | bugfix | documentation | refactoring | security
  | performance | feature | maintenance | research
deriving DecidableEq, Repr

structure TaskResult where
  success : Bool
  summary : String
  filesModified : List String
  linesChanged : Nat
  testsRun : Option Nat := none
  testsPassed : Option Nat := none
  errors : Option (List String) := none
  warnings : Option (List String) := none
  gitCommitHash : Option String := none
deriving DecidableEq, Repr

/-- The fields of a `Task`, parameterized by the type of nested subtasks
(the `assignedTo` and `context` fields of the source interface are never
read or written by the operations verified here and are omitted). -/
structure TaskF (τ : Type) where
  id : String
  title : String
  description : String
  status : TaskStatus
  priority : TaskPriority
  category : TaskCategory
  createdAt : DateVal
  updatedAt : DateVal
  completedAt : Option DateVal := none
  parentTaskId : Option String := none
  subtasks : Option (List τ) := none
  dependencies : Option (List String) := none
  result : Option TaskResult := none

/-- A task record; subtasks hold full task records, as in the source. -/
inductive Task where
  | mk : TaskF Task → Task

/-- Field access on a task. -/
def Task.core : Task → TaskF Task
  | .mk c => c

/-- The in-memory task store of src/task-manager.ts. -/
abbrev TaskStore : Type := List (String × Task)

/-- Every stored task record carries its own key as its `id`
(an invariant of the registry: entries are only ever set via
`tasks.set(task.id, task)`). -/
def WellKeyed (s : TaskStore) : Prop := ∀ e ∈ s, (Task.core e.2).id = e.1

/-! ### task-manager.ts operations -/

/-- JS truthiness of an optional string field. -/
def truthyStrOpt : Option String → Bool
  | none => false
  | some s => if s = "" then false else true

structure CreateTaskParams where
  title : String
  description : String
  priority : Option TaskPriority := none
  category : Option TaskCategory := none
  parentTaskId : Option String := none
  dependencies : Option (List String) := none

/-- `createTask` (src/task-manager.ts).  `now` models `Date.now()` and
`newId` models the `generateTaskId()` result. -/
def createTask (now : Nat) (newId : String) (p : CreateTaskParams) (tasks : TaskStore) :
    Task × TaskStore :=
  let task : Task := .mk {
    id := newId
    title := p.title
    description := p.description
    status := .pending
    priority := p.priority.getD .medium
    category := p.category.getD .development
    createdAt := .num now
    updatedAt := .num now
    parentTaskId := p.parentTaskId
    dependencies := p.dependencies }
  let tasks1 := setEntry tasks newId task
  match p.parentTaskId with
  | some pid =>
    if pid = "" then (task, tasks1)
    else
      match getEntry tasks1 pid with
      | some parent =>
        let pc := parent.core
        (task, setEntry tasks1 pid
          (.mk { pc with subtasks := some (pc.subtasks.getD [] ++ [task]),
                         updatedAt := .num now }))
      | none => (task, tasks1)
  | none => (task, tasks1)

/-- The status filter of `listTasks` admits the sentinel value `'all'`. -/
inductive StatusFilter where
  | all
  | only (s : TaskStatus)
deriving DecidableEq, Repr

structure ListFilters where
  status : Option StatusFilter := none
  category : Option TaskCategory := none
  priority : Option TaskPriority := none
  limit : Option Nat := none

/-- The fixed priority rank of `listTasks`. -/
def priorityOrder : TaskPriority → Nat
  | .critical => 0
  | .high => 1
  | .medium => 2
  | .low => 3

/-- The comparator of `listTasks` as a non-strict order: `a` sorts no later
than `b` iff `a` has a strictly smaller priority rank, or the ranks tie and
`a` was created no earlier than `b` (newer first). -/
def taskLE (a b : Task) : Prop :=
  priorityOrder a.core.priority < priorityOrder b.core.priority ∨
    (priorityOrder a.core.priority = priorityOrder b.core.priority ∧
      dvTime b.core.createdAt ≤ dvTime a.core.createdAt)

instance : DecidableRel taskLE := fun a b => by
  unfold taskLE; exact inferInstance

instance : IsTotal Task taskLE := by
  constructor
  intro a b
  unfold taskLE
  omega

instance : IsTrans Task taskLE := by
  constructor
  intro a b c hab hbc
  unfold taskLE at hab hbc ⊢
  omega

/-- `listTasks` (src/task-manager.ts): drop subtasks, apply the optional
filters, sort by priority rank then descending creation time, apply the
(truthy) result cap. -/
def listTasks (filters : ListFilters) (tasks : TaskStore) : List Task :=
  let result0 : List Task := valuesOf tasks
  let result1 : List Task := result0.filter (fun t => !truthyStrOpt t.core.parentTaskId)
  let result2 : List Task := match filters.status with
    | some (.only s) => result1.filter (fun t => decide (t.core.status = s))
    | _ => result1
  let result3 : List Task := match filters.category with
    | some c => result2.filter (fun t => decide (t.core.category = c))
    | none => result2
  let result4 : List Task := match filters.priority with
    | some p => result3.filter (fun t => decide (t.core.priority = p))
    | none => result3
  let sorted := result4.insertionSort taskLE
  match filters.limit with
  | some l => if l = 0 then sorted else sorted.take l
  | none => sorted

/-! ### task-manager.ts export / import -/

mutual
/-- `JSON.stringify` applied to a task: every date field, at every nesting
depth, becomes its serialized string; all other fields are plain JSON data
and survive unchanged. -/
def serTask : Task → Task
  | .mk ⟨i, ti, de, st, pr, ca, cr, up, co, par, none, dep, res⟩ =>
      .mk ⟨i, ti, de, st, pr, ca, dvSer cr, dvSer up, co.map dvSer, par, none, dep, res⟩
  | .mk ⟨i, ti, de, st, pr, ca, cr, up, co, par, some l, dep, res⟩ =>
      .mk ⟨i, ti, de, st, pr, ca, dvSer cr, dvSer up, co.map dvSer, par,
           some (serTaskList l), dep, res⟩
def serTaskList : List Task → List Task
  | [] => []
  | t :: ts => serTask t :: serTaskList ts
end

/-- `exportTasks`: serialize the store values in insertion order. -/
def exportTasks (s : TaskStore) : List Task := (valuesOf s).map serTask

/-- The date-string conversion `importTasks` performs on one imported
record: only the three top-level date fields are reparsed (`completedAt`
behind its truthiness guard); nested subtask dates are left as they came
out of the parser. -/
def reviveTaskDates : Task → Task
  | .mk c => .mk { c with
      createdAt := dvParse c.createdAt
      updatedAt := dvParse c.updatedAt
      completedAt := match c.completedAt with
        | some v => if dvTruthy v then some (dvParse v) else some v
        | none => none }

/-- One element of a parsed JSON array / list: either a record of the
expected shape, or anything else (`null`, a number, …) whose field access
throws at runtime. -/
inductive JsonItem (α : Type) where
  | obj (a : α)
  | malformed

/-- The `for`-loop body of `importTasks`: records are revived and stored
one at a time; hitting a malformed element throws, which the surrounding
`catch` turns into a return value of `0` — the records already stored
stay stored. -/
def importTasksGo : List (JsonItem Task) → TaskStore → Nat → TaskStore × Nat
  | [], s, n => (s, n)
  | .malformed :: _, s, _ => (s, 0)
  | .obj t :: rest, s, n =>
      let t' := reviveTaskDates t
      importTasksGo rest (setEntry s t'.core.id t') (n + 1)

/-- `importTasks`: `payload = none` models a string `JSON.parse` rejects
(the `catch` yields `0` with the store untouched). -/
def importTasks (payload : Option (List (JsonItem Task))) (s : TaskStore) : TaskStore × Nat :=
  match payload with
  | none => (s, 0)
  | some items => importTasksGo items s 0

mutual
/-- Reparse every date field of a record, at every nesting depth — the
normalization under which the round-trip claim compares records ("dates
equal after reparsing from their serialized string form"). -/
def reparseDatesTask : Task → Task
  | .mk ⟨i, ti, de, st, pr, ca, cr, up, co, par, none, dep, res⟩ =>
      .mk ⟨i, ti, de, st, pr, ca, dvParse cr, dvParse up, co.map dvParse, par, none, dep, res⟩
  | .mk ⟨i, ti, de, st, pr, ca, cr, up, co, par, some l, dep, res⟩ =>
      .mk ⟨i, ti, de, st, pr, ca, dvParse cr, dvParse up, co.map dvParse, par,
           some (reparseDatesList l), dep, res⟩
def reparseDatesList : List Task → List Task
  | [] => []
  | t :: ts => reparseDatesTask t :: reparseDatesList ts
end

mutual
/-- All date fields of the record (at every depth) are live `Date`s — true
of every record the registry itself produces. -/
def datesNumericTask : Task → Bool
  | .mk ⟨_, _, _, _, _, _, cr, up, co, _, none, _, _⟩ =>
      dvIsNum cr && dvIsNum up && (match co with | some v => dvIsNum v | none => true)
  | .mk ⟨_, _, _, _, _, _, cr, up, co, _, some l, _, _⟩ =>
      dvIsNum cr && dvIsNum up && (match co with | some v => dvIsNum v | none => true)
        && datesNumericList l
def datesNumericList : List Task → Bool
  | [] => true
  | t :: ts => datesNumericTask t && datesNumericList ts
end

/-! ### Learning data model (src/types.ts) -/

/-- Learning outcome; `partialResult` models the third source literal. -/
inductive Outcome where
  | success | failure | partialResult
deriving DecidableEq, Repr

structure LearningEntry where
  id : String
  timestamp : DateVal
  taskId : String
  pattern : String
  outcome : Outcome
  feedback : Option String := none
  improvement : Option String := none
deriving DecidableEq, Repr

/-- A JS number in the roles where `Infinity`/`NaN` can actually arise
(the average-completion-time metric). -/
inductive JSNum where
  | fin (q : ℚ)
  | posInf
  | negInf
  | nan
deriving DecidableEq

def JSNum.mulInt : JSNum → ℤ → JSNum
  | .fin q, m => .fin (q * m)
  | .posInf, m => if 0 < m then .posInf else if m < 0 then .negInf else .nan
  | .negInf, m => if 0 < m then .negInf else if m < 0 then .posInf else .nan
  | .nan, _ => .nan

def JSNum.addRat : JSNum → ℚ → JSNum
  | .fin q, d => .fin (q + d)
  | .posInf, _ => .posInf
  | .negInf, _ => .negInf
  | .nan, _ => .nan

/-- IEEE division by a nonnegative integer: division by `0` yields
`±Infinity` on a nonzero numerator and `NaN` on a zero (or `NaN`)
numerator; `±Infinity` divided by a finite nonnegative number keeps its
sign. -/
def JSNum.divNat : JSNum → Nat → JSNum
  | .fin q, 0 => if 0 < q then .posInf else if q < 0 then .negInf else .nan
  | .fin q, n + 1 => .fin (q / (n + 1 : ℚ))
  | .posInf, _ => .posInf
  | .negInf, _ => .negInf
  | .nan, _ => .nan

def JSNum.isFinite : JSNum → Bool
  | .fin _ => true
  | _ => false

structure AgentMetrics where
  totalTasks : Nat
  completedTasks : Nat
  failedTasks : Nat
  averageCompletionTime : JSNum
  successRate : ℚ
  tokensUsed : ℚ
  lastActiveAt : DateVal
deriving DecidableEq

/-- The two module-level stores of src/learning-manager.ts. -/
abbrev LearnMap : Type := List (String × LearningEntry)

structure LearnState where
  learnings : LearnMap
  metrics : AgentMetrics
deriving DecidableEq

/-! ### learning-manager.ts operations -/

structure RecordLearningParams where
  taskId : String
  pattern : String
  outcome : Outcome
  feedback : Option String := none
  improvement : Option String := none

/-- `recordLearning`: store the entry, then bump the counters and recompute
the success rate. -/
def recordLearning (now : Nat) (newId : String) (p : RecordLearningParams) (st : LearnState) :
    LearningEntry × LearnState :=
  let entry : LearningEntry := {
    id := newId
    timestamp := .num now
    taskId := p.taskId
    pattern := p.pattern
    outcome := p.outcome
    feedback := p.feedback
    improvement := p.improvement }
  let m := st.metrics
  let total := m.totalTasks + 1
  let completed := if p.outcome = .success then m.completedTasks + 1 else m.completedTasks
  let failed := if p.outcome = .failure then m.failedTasks + 1 else m.failedTasks
  (entry,
   { learnings := setEntry st.learnings entry.id entry
     metrics := { m with
       totalTasks := total
       completedTasks := completed
       failedTasks := failed
       successRate := (completed : ℚ) / (total : ℚ)
       lastActiveAt := .num now } })

/-- `String.prototype.toLowerCase` (character-wise, as in the source
strings, which stay in the ASCII-compatible range). -/
def toLowerStr (s : String) : String := ⟨s.toList.map Char.toLower⟩

/-- `String.prototype.includes`: substring containment. -/
def listIncludes (hay sub : List Char) : Bool :=
  match hay with
  | [] => sub.isEmpty
  | c :: t => sub.isPrefixOf (c :: t) || listIncludes t sub

def strIncludes (hay sub : String) : Bool := listIncludes hay.toList sub.toList

/-- `String.prototype.split(/\s+/)`: pieces between maximal whitespace
runs; a leading or trailing run contributes an empty piece, and an empty
input yields one empty piece (fuel-driven so that it reduces). -/
def splitWsGo : Nat → List Char → List String
  | 0, _ => []
  | fuel + 1, cs =>
    let tok : String := ⟨cs.takeWhile (fun c => !c.isWhitespace)⟩
    let rest := cs.dropWhile (fun c => !c.isWhitespace)
    match rest with
    | [] => [tok]
    | _ :: rest2 => tok :: splitWsGo fuel (rest2.dropWhile Char.isWhitespace)

def jsSplitWs (s : String) : List String := splitWsGo (s.toList.length + 1) s.toList

/-- The word-matching score of `findSimilarLearnings`: how many of the
query words occur (as substrings) in the lowercased entry pattern;
repeated query words count repeatedly. -/
def matchScore (words : List String) (entry : LearningEntry) : Nat :=
  words.countP (fun w => strIncludes (toLowerStr entry.pattern) w)

/-- The ranking of `findSimilarLearnings` as a non-strict order: descending
score. -/
def scoreGE (a b : LearningEntry × Nat) : Prop := b.2 ≤ a.2

instance : DecidableRel scoreGE := fun a b => by
  unfold scoreGE; exact inferInstance

instance : IsTotal (LearningEntry × Nat) scoreGE := by
  constructor
  intro a b
  unfold scoreGE
  omega

instance : IsTrans (LearningEntry × Nat) scoreGE := by
  constructor
  intro a b c hab hbc
  unfold scoreGE at hab hbc ⊢
  omega

/-- `findSimilarLearnings`: score every stored entry against the
whitespace-split lowercased query, keep positive scores, sort by
descending score, truncate to `limit` (the source default is 5). -/
def findSimilarLearnings (pattern : String) (limit : Nat) (learnings : LearnMap) :
    List LearningEntry :=
  let patternLower := toLowerStr pattern
  let words := jsSplitWs patternLower
  let scored := (valuesOf learnings).map (fun e => (e, matchScore words e))
  let positive := scored.filter (fun x => decide (0 < x.2))
  let sorted := positive.insertionSort scoreGE
  (sorted.take limit).map Prod.fst

/-- `addTokensUsed`. -/
def addTokensUsed (count : ℚ) (m : AgentMetrics) : AgentMetrics :=
  { m with tokensUsed := m.tokensUsed + count }

/-- `recordCompletionTime`: reconstruct the running total as
`average * (completedTasks - 1)` and divide the updated total by
`completedTasks` — with no guard against `completedTasks = 0`. -/
def recordCompletionTime (durationMs : ℚ) (m : AgentMetrics) : AgentMetrics :=
  let totalTime := m.averageCompletionTime.mulInt ((m.completedTasks : ℤ) - 1)
  { m with averageCompletionTime := (totalTime.addRat durationMs).divNat m.completedTasks }

/-! ### learning-manager.ts export / import -/

/-- Metric serialization under `JSON.stringify`: the date becomes a string
(a nonfinite average would serialize to `null`; no claim touches the
metric values, so that corner is not modelled further). -/
def serMetrics (m : AgentMetrics) : AgentMetrics :=
  { m with lastActiveAt := dvSer m.lastActiveAt }

def serLearning (e : LearningEntry) : LearningEntry :=
  { e with timestamp := dvSer e.timestamp }

/-- The export envelope `{ learnings, metrics, exportedAt }`. -/
structure LearnExportPayload where
  learnings : List LearningEntry
  metrics : AgentMetrics
  exportedAt : String

/-- `exportLearnings`. -/
def exportLearnings (now : Nat) (st : LearnState) : LearnExportPayload :=
  { learnings := (valuesOf st.learnings).map serLearning
    metrics := serMetrics st.metrics
    exportedAt := dateToString now }

/-- A parsed import payload: either field may be absent. -/
structure LearnImportPayload where
  learnings : Option (List (JsonItem LearningEntry)) := none
  metrics : Option AgentMetrics := none

/-- The timestamp conversion `importLearnings` performs on one record
(unconditionally, unlike the task variant). -/
def reviveLearning (e : LearningEntry) : LearningEntry :=
  { e with timestamp := dvParse e.timestamp }

/-- The `for`-loop of `importLearnings`; the boolean reports whether the
loop ran to completion (a malformed element throws out of the whole
`try`). -/
def importLearningsGo : List (JsonItem LearningEntry) → LearnMap → Nat → LearnMap × Nat × Bool
  | [], s, n => (s, n, true)
  | .malformed :: _, s, _ => (s, 0, false)
  | .obj e :: rest, s, n =>
      let e' := reviveLearning e
      importLearningsGo rest (setEntry s e'.id e') (n + 1)

/-- `importLearnings`: on an unparsable string (`none`) the `catch` yields
`0`; a throw inside the loop also skips the metrics assignment; otherwise
`Object.assign(metrics, data.metrics)` replaces the metrics and stamps
`lastActiveAt`. -/
def importLearnings (now : Nat) (payload : Option LearnImportPayload) (st : LearnState) :
    LearnState × Nat :=
  match payload with
  | none => (st, 0)
  | some p =>
    match (match p.learnings with
           | some items => importLearningsGo items st.learnings 0
           | none => (st.learnings, 0, true)) with
    | (lm, n, ok) =>
      if ok then
        let metrics1 := match p.metrics with
          | some m => { m with lastActiveAt := DateVal.num now }
          | none => st.metrics
        ({ learnings := lm, metrics := metrics1 }, n)
      else
        ({ learnings := lm, metrics := st.metrics }, 0)

/-! ### client.ts: run polling -/

inductive RunStatus where
  | queued | inProgress | requiresAction | completed | failed | cancelled | expired
deriving DecidableEq, Repr

/-- What one `runs.retrieve` call reports: the status and the vendor error
payload `run.last_error?.message`. -/
structure RunPoll where
  status : RunStatus
  lastError : Option String := none

/-- `NEXIFYAI_CONFIG.timeoutMs` (src/config.ts). -/
def timeoutMs : Nat := 120000

/-- `NEXIFYAI_CONFIG.pollIntervalMs` (src/config.ts). -/
def pollIntervalMs : Nat := 1000

/-- Polls happen at elapsed times `0, pollIntervalMs, 2·pollIntervalMs, …`
while the elapsed time is below `timeoutMs`, so exactly this many polls
occur before the loop gives up. -/
def maxPolls : Nat := timeoutMs / pollIntervalMs

/-- The statuses on which the loop keeps polling (`requires_action`
additionally dispatches tool calls and submits their outputs, which does
not affect the control flow modelled here). -/
def continuesPolling : RunStatus → Bool
  | .queued => true
  | .inProgress => true
  | .requiresAction => true
  | _ => false

/-- The poll loop of `waitForRunCompletion`, with the remaining number of
polls as fuel and `i` counting the polls made so far. -/
def waitFrom (polls : Nat → RunPoll) : Nat → Nat → Except String RunPoll
  | 0, _ => .error "Run timed out"
  | fuel + 1, i =>
    let run := polls i
    match run.status with
    | .completed => .ok run
    | .failed => .error ("Run failed: " ++ (run.lastError.getD "Unknown error"))
    | .cancelled => .error "Run was cancelled"
    | .expired => .error "Run expired"
    | .requiresAction => waitFrom polls fuel (i + 1)
    | .queued => waitFrom polls fuel (i + 1)
    | .inProgress => waitFrom polls fuel (i + 1)

/-- `waitForRunCompletion` (src/client.ts), over the sequence of statuses
the vendor reports at each poll. -/
def waitForRunCompletion (polls : Nat → RunPoll) : Except String RunPoll :=
  waitFrom polls maxPolls 0

/-! ### agent.ts: processMessage -/

structure ChatMsg where
  id : String
  content : String
deriving DecidableEq, Repr

inductive SessionStatus where
  | active | idle | processing | error
deriving DecidableEq, Repr

structure SessionState where
  messages : List ChatMsg
  status : SessionStatus
deriving DecidableEq, Repr

/-- The outcomes of the four awaited remote calls `processMessage` makes,
in source order (`searchVectorStore` is a local stub returning `[]` and
cannot fail). `Except.error` models a rejected promise. -/
structure RemoteEnv where
  addMessage : Except String ChatMsg
  runAssistant : Except String String
  waitRun : Except String Unit
  getMessages : Except String (List ChatMsg)

/-- `String.prototype.slice(0, n)`. -/
def strTake (s : String) (n : Nat) : String := ⟨s.toList.take n⟩

/-- The `catch` block of `processMessage`: set the session to `error`,
record a failure learning, and return the formatted error string. -/
def processFailure (now : Nat) (newLearnId : String) (userMessage errMsg : String)
    (sess : SessionState) (ls : LearnState) : String × SessionState × LearnState :=
  let ls1 := (recordLearning now newLearnId
    { taskId := "error"
      pattern := "Fehler bei Verarbeitung: " ++ strTake userMessage 50
      outcome := .failure
      feedback := some errMsg
      improvement := some "Bessere Fehlerbehandlung für diese Art von Anfrage" } ls).2
  ("❌ Fehler bei der Verarbeitung: " ++ errMsg, { sess with status := .error }, ls1)

/-- `processMessage` (src/agent.ts).  The user message is appended to the
thread *before* the `try` block, so a failure there propagates
(`Except.error`); failures from the `try` body are routed through
`processFailure`.  On success the last thread message is returned and the
token/time metrics are updated; with no messages a fixed fallback string
is returned. -/
def processMessage (env : RemoteEnv) (now : Nat) (durationMs : ℚ) (newLearnId : String)
    (userMessage : String) (sess : SessionState) (ls : LearnState) :
    Except String (String × SessionState × LearnState) :=
  match env.addMessage with
  | .error e => .error e
  | .ok userMsg =>
    let sess1 : SessionState :=
      { sess with messages := sess.messages ++ [userMsg], status := .processing }
    match env.runAssistant with
    | .error e => .ok (processFailure now newLearnId userMessage e sess1 ls)
    | .ok _runId =>
      match env.waitRun with
      | .error e => .ok (processFailure now newLearnId userMessage e sess1 ls)
      | .ok _ =>
        match env.getMessages with
        | .error e => .ok (processFailure now newLearnId userMessage e sess1 ls)
        | .ok msgs =>
          match msgs.getLast? with
          | some response =>
            let ls2 : LearnState := { ls with
              metrics := recordCompletionTime durationMs
                (addTokensUsed ((response.content.toList.length : ℚ) / 4) ls.metrics) }
            .ok (response.content,
                 { sess1 with messages := sess1.messages ++ [response], status := .active },
                 ls2)
          | none => .ok ("Keine Antwort erhalten.", { sess1 with status := .active }, ls)

/-- A failure inside the `try` block of `processMessage`, with the error
message it carries: the run start, the run polling, or the message fetch
rejects (whichever comes first). -/
def tryPhaseFails (env : RemoteEnv) (e : String) : Prop :=
  env.runAssistant = .error e ∨
    (∃ r, env.runAssistant = .ok r ∧ env.waitRun = .error e) ∨
    (∃ r, env.runAssistant = .ok r ∧ env.waitRun = .ok () ∧ env.getMessages = .error e)

/-! ### Concrete fixtures used by witnesses and counterexamples -/

/-- A stored task that carries a parent identifier (as `createTask` stores
one). -/
def sampleParentedTask : Task := .mk {
  id := "t1", title := "x", description := "y", status := .pending,
  priority := .high, category := .development,
  createdAt := .num 0, updatedAt := .num 0, parentTaskId := some "p" }

def sampleSubtaskStore : TaskStore := [("t1", sampleParentedTask)]

/-- A learning entry whose pattern contains the query word `cat` as a
substring without sharing any whole word with it. -/
def concatEntry : LearningEntry := {
  id := "e1", timestamp := .num 0, taskId := "t",
  pattern := "concatenate", outcome := .success }

def concatStore : LearnMap := [("e1", concatEntry)]

/-- A remote environment whose very first call (the message append, made
before the `try` block) rejects. -/
def envAddMessageFails : RemoteEnv := {
  addMessage := .error "Netzwerkfehler"
  runAssistant := .ok "run1"
  waitRun := .ok ()
  getMessages := .ok [] }

/-- A plain stored task with live dates. -/
def sampleTask : Task := .mk {
  id := "a1", title := "t", description := "d", status := .pending,
  priority := .medium, category := .development,
  createdAt := .num 5, updatedAt := .num 5 }

def sampleChild : Task := .mk {
  id := "b1", title := "c", description := "dc", status := .pending,
  priority := .low, category := .bugfix,
  createdAt := .num 3, updatedAt := .num 4, parentTaskId := some "a1" }

/-- A completed task with a nested subtask record, as the registry holds
after `createTask` with a parent id plus an update. -/
def sampleParent : Task := .mk {
  id := "a1", title := "pt", description := "dp", status := .completed,
  priority := .critical, category := .feature,
  createdAt := .num 1, updatedAt := .num 2, completedAt := some (.num 9),
  subtasks := some [sampleChild] }

def sampleStore : TaskStore := [("a1", sampleParent), ("b1", sampleChild)]

def sampleLearn : LearningEntry := {
  id := "l1", timestamp := .num 6, taskId := "a1",
  pattern := "alpha beta", outcome := .success, feedback := some "fb" }

def sampleMetrics : AgentMetrics :=
  ⟨1, 1, 0, .fin 0, 1, 0, .num 6⟩

def sampleLearnState : LearnState := ⟨[("l1", sampleLearn)], sampleMetrics⟩

/-- Every stored learning record carries its own key as its `id` (the
learning-registry analogue of `WellKeyed`). -/
def WellKeyedL (s : LearnMap) : Prop := ∀ e ∈ s, e.2.id = e.1

/-- A remote environment in which the run start (inside the `try` block)
rejects. -/
def envRunFails : RemoteEnv := {
  addMessage := .ok ⟨"m1", "hi"⟩
  runAssistant := .error "kaputt"
  waitRun := .ok ()
  getMessages := .ok [] }

/-! ## Helper lemmas -/

theorem getEntry_setEntry_self {α : Type} (s : List (String × α)) (k : String) (v : α) :
    getEntry (setEntry s k v) k = some v := by
  induction s with
  | nil => simp [setEntry, getEntry]
  | cons e t ih =>
    obtain ⟨k', v'⟩ := e
    by_cases h : k' = k <;> simp [setEntry, getEntry, h, ih]

theorem getEntry_setEntry_ne {α : Type} (s : List (String × α)) (k k2 : String) (v : α)
    (h : k ≠ k2) : getEntry (setEntry s k v) k2 = getEntry s k2 := by
  induction s with
  | nil => simp [setEntry, getEntry, h]
  | cons e t ih =>
    obtain ⟨k', v'⟩ := e
    by_cases h' : k' = k
    · subst h'
      simp [setEntry, getEntry, h]
    · simp [setEntry, getEntry, h', ih]

theorem mem_valuesOf_setEntry {α : Type} (s : List (String × α)) (k : String) (v : α) :
    v ∈ valuesOf (setEntry s k v) := by
  induction s with
  | nil => simp [setEntry, valuesOf]
  | cons e t ih =>
    obtain ⟨k', v'⟩ := e
    by_cases h : k' = k <;> simp [setEntry, valuesOf, h]
    right
    simpa [valuesOf] using ih

theorem wellKeyed_getEntry (s : TaskStore) (k : String) (v : Task)
    (hW : WellKeyed s) (hget : getEntry s k = some v) : (Task.core v).id = k := by
  induction s with
  | nil => simp [getEntry] at hget
  | cons e t ih =>
    obtain ⟨k', v'⟩ := e
    by_cases h : k' = k
    · subst h
      simp [getEntry] at hget
      subst hget
      exact hW (k', v') (by simp)
    · simp [getEntry, h] at hget
      exact ih (fun e he => hW e (by simp [he])) hget

theorem wellKeyed_setEntry (s : TaskStore) (k : String) (v : Task)
    (hW : WellKeyed s) (hid : (Task.core v).id = k) : WellKeyed (setEntry s k v) := by
  induction s with
  | nil =>
    intro e he
    simp [setEntry] at he
    simp [he, hid]
  | cons e0 t ih =>
    obtain ⟨k', v'⟩ := e0
    by_cases h : k' = k
    · intro e he
      simp [setEntry, h] at he
      rcases he with he | he
      · simp [he, hid]
      · exact hW e (by simp [he])
    · intro e he
      simp [setEntry, h] at he
      rcases he with he | he
      · exact hW e (by simp [he])
      · exact ih (fun e2 he2 => hW e2 (by simp [he2])) e he

theorem createTask_fst (now : Nat) (newId : String) (p : CreateTaskParams) (tasks : TaskStore) :
    (createTask now newId p tasks).1 = .mk {
      id := newId, title := p.title, description := p.description,
      status := .pending, priority := p.priority.getD .medium,
      category := p.category.getD .development,
      createdAt := .num now, updatedAt := .num now,
      parentTaskId := p.parentTaskId, dependencies := p.dependencies } := by
  unfold createTask
  cases hp : p.parentTaskId with
  | none => rfl
  | some pid =>
    dsimp only
    by_cases h : pid = ""
    · rw [if_pos h]
    · rw [if_neg h]
      split <;> rfl

theorem mem_listTasks_no_filters (t : Task) (s : TaskStore)
    (hmem : t ∈ valuesOf s) (htop : truthyStrOpt (Task.core t).parentTaskId = false) :
    t ∈ listTasks {} s := by
  unfold listTasks
  simp only [List.mem_filter]
  rw [(List.perm_insertionSort taskLE _).mem_iff]
  exact List.mem_filter.mpr ⟨hmem, by simp [htop]⟩

theorem isPrefixOf_self_list {α : Type} [DecidableEq α] (l : List α) : l.isPrefixOf l = true := by
  induction l with
  | nil => rfl
  | cons c t ih => simp [List.isPrefixOf, ih]

theorem listIncludes_append_self (pre sub : List Char) : listIncludes (pre ++ sub) sub = true := by
  induction pre with
  | nil =>
    cases sub with
    | nil => rfl
    | cons c t => simp [listIncludes, isPrefixOf_self_list]
  | cons c t ih => simp [listIncludes, ih]

theorem strIncludes_append_self (pre sub : String) : strIncludes (pre ++ sub) sub = true := by
  have h : (pre ++ sub).toList = pre.toList ++ sub.toList := by
    simp [String.toList]
  simpa [strIncludes, h] using listIncludes_append_self pre.toList sub.toList

theorem waitFrom_succ (polls : Nat → RunPoll) (f i : Nat) :
    waitFrom polls (f + 1) i =
      match (polls i).status with
      | .completed => .ok (polls i)
      | .failed => .error ("Run failed: " ++ ((polls i).lastError.getD "Unknown error"))
      | .cancelled => .error "Run was cancelled"
      | .expired => .error "Run expired"
      | .requiresAction => waitFrom polls f (i + 1)
      | .queued => waitFrom polls f (i + 1)
      | .inProgress => waitFrom polls f (i + 1) := rfl

theorem waitFrom_skip (polls : Nat → RunPoll) (n : Nat) :
    ∀ fuel i, n ≤ fuel → (∀ j, j < n → continuesPolling (polls (i + j)).status = true) →
      waitFrom polls fuel i = waitFrom polls (fuel - n) (i + n) := by
  induction n with
  | zero => intro fuel i _ _; simp
  | succ k ih =>
    intro fuel i hle hcont
    obtain ⟨f, rfl⟩ : ∃ f, fuel = f + 1 := ⟨fuel - 1, by omega⟩
    have h0 : continuesPolling (polls i).status = true := by
      have h00 := hcont 0 (by omega)
      rwa [Nat.add_zero] at h00
    have hstep : waitFrom polls (f + 1) i = waitFrom polls f (i + 1) := by
      rw [waitFrom_succ]
      cases hst : (polls i).status <;> simp [hst] <;> simp [continuesPolling, hst] at h0
    have htail := ih f (i + 1) (by omega) (fun j hj => by
      have := hcont (j + 1) (by omega)
      simpa [Nat.add_assoc, Nat.add_comm 1 j] using this)
    rw [hstep, htail]
    congr 1 <;> omega

/-! ## Claims -/

/-- C10: `recordCompletionTime` divides by `completedTasks` with no zero
guard: whenever it is called while the completed-task counter is zero, the
resulting average completion time is not a finite number (it is
`±Infinity` or `NaN`), for every duration and every prior metric state; a
finite average therefore requires `completedTasks ≥ 1`. -/
theorem recordCompletionTime_not_finite_of_zero_completed (d : ℚ) (m : AgentMetrics)
    (h : m.completedTasks = 0) :
    (recordCompletionTime d m).averageCompletionTime.isFinite = false := by
  cases havg : m.averageCompletionTime
  all_goals
    simp [recordCompletionTime, JSNum.mulInt, JSNum.addRat, JSNum.divNat, JSNum.isFinite,
      h, havg]
  all_goals split_ifs
  all_goals simp [JSNum.isFinite]

/-- Witness for C10 at a concrete zeroed metric state. -/
theorem recordCompletionTime_not_finite_witness :
    (recordCompletionTime 5
      { totalTasks := 0, completedTasks := 0, failedTasks := 0,
        averageCompletionTime := .fin 0, successRate := 0, tokensUsed := 0,
        lastActiveAt := .num 0 }).averageCompletionTime.isFinite = false :=
  recordCompletionTime_not_finite_of_zero_completed 5 _ rfl

/-- C6: every `recordLearning` call increments `totalTasks`; a `success`
outcome additionally increments `completedTasks` and makes the recomputed
`successRate` strictly positive; a `failure` outcome increments
`failedTasks` and leaves `completedTasks` unchanged. -/
theorem recordLearning_metrics (now : Nat) (newId : String) (p : RecordLearningParams)
    (st : LearnState) :
    ((recordLearning now newId p st).2.metrics.totalTasks = st.metrics.totalTasks + 1) ∧
    (p.outcome = .success →
      (recordLearning now newId p st).2.metrics.completedTasks = st.metrics.completedTasks + 1 ∧
      0 < (recordLearning now newId p st).2.metrics.successRate) ∧
    (p.outcome = .failure →
      (recordLearning now newId p st).2.metrics.failedTasks = st.metrics.failedTasks + 1 ∧
      (recordLearning now newId p st).2.metrics.completedTasks = st.metrics.completedTasks) := by
  refine ⟨rfl, ?_, ?_⟩
  · intro h
    constructor
    · simp [recordLearning, h]
    · have hpos : (0 : ℚ) <
          ((st.metrics.completedTasks + 1 : Nat) : ℚ) / ((st.metrics.totalTasks + 1 : Nat) : ℚ) := by
        positivity
      simpa [recordLearning, h] using hpos
  · intro h
    constructor
    · simp [recordLearning, h]
    · simp [recordLearning, h]

/-- Witness for C6 at concrete success and failure recordings. -/
theorem recordLearning_metrics_witness :
    ((recordLearning 7 "l1" { taskId := "t", pattern := "p", outcome := .success }
        ⟨[], 0, 0, 0, .fin 0, 0, 0, .num 0⟩).2.metrics.completedTasks = 1 ∧
      0 < (recordLearning 7 "l1" { taskId := "t", pattern := "p", outcome := .success }
        ⟨[], 0, 0, 0, .fin 0, 0, 0, .num 0⟩).2.metrics.successRate) ∧
    ((recordLearning 7 "l2" { taskId := "t", pattern := "p", outcome := .failure }
        ⟨[], 0, 0, 0, .fin 0, 0, 0, .num 0⟩).2.metrics.failedTasks = 1 ∧
      (recordLearning 7 "l2" { taskId := "t", pattern := "p", outcome := .failure }
        ⟨[], 0, 0, 0, .fin 0, 0, 0, .num 0⟩).2.metrics.completedTasks = 0) :=
  ⟨(recordLearning_metrics 7 "l1" _ _).2.1 rfl, (recordLearning_metrics 7 "l2" _ _).2.2 rfl⟩

/-- C3 (amended): the poll loop raises on every non-completed terminal
state and on timeout, but only the `failed` state carries the vendor
message (`cancelled` and `expired` raise fixed strings): after any number
`k` of polls that keep the loop running, a `failed` status raises
`"Run failed: "` followed by the vendor message (or `"Unknown error"`), a
`cancelled` status raises `"Run was cancelled"`, an `expired` status raises
`"Run expired"`, a `completed` status returns the run; and if every status
up to the poll budget keeps the loop running, the loop raises
`"Run timed out"`. -/
theorem waitForRunCompletion_outcomes (polls : Nat → RunPoll) (k : Nat)
    (hcont : ∀ j, j < k → continuesPolling (polls j).status = true) :
    (k < maxPolls →
      (((polls k).status = .failed →
        waitForRunCompletion polls =
          .error ("Run failed: " ++ ((polls k).lastError.getD "Unknown error")) ∧
        (∀ msg, (polls k).lastError = some msg →
          strIncludes ("Run failed: " ++ msg) msg = true)) ∧
      ((polls k).status = .cancelled →
        waitForRunCompletion polls = .error "Run was cancelled") ∧
      ((polls k).status = .expired →
        waitForRunCompletion polls = .error "Run expired") ∧
      ((polls k).status = .completed →
        waitForRunCompletion polls = .ok (polls k)))) ∧
    ((∀ j, j < maxPolls → continuesPolling (polls j).status = true) →
      waitForRunCompletion polls = .error "Run timed out") := by
  constructor
  · intro hk
    have hskip := waitFrom_skip polls k maxPolls 0 (by omega) (fun j hj => by
      simpa using hcont j hj)
    obtain ⟨f, hf⟩ : ∃ f, maxPolls - k = f + 1 := ⟨maxPolls - k - 1, by omega⟩
    have hrun : waitForRunCompletion polls = waitFrom polls (f + 1) k := by
      simpa [waitForRunCompletion, hf] using hskip
    refine ⟨?_, ?_, ?_, ?_⟩
    all_goals intro hst
    · refine ⟨?_, fun msg _ => strIncludes_append_self _ msg⟩
      rw [hrun]
      unfold waitFrom
      simp [hst]
    · rw [hrun]; unfold waitFrom; simp [hst]
    · rw [hrun]; unfold waitFrom; simp [hst]
    · rw [hrun]; unfold waitFrom; simp [hst]
  · intro hall
    have hskip := waitFrom_skip polls maxPolls maxPolls 0 (by omega) (fun j hj => by
      simpa using hall j hj)
    simpa [waitForRunCompletion] using hskip

/-- Witness for C3 at a run that fails on the first poll with a vendor
message, and a run that never leaves the queue. -/
theorem waitForRunCompletion_outcomes_witness :
    (waitForRunCompletion (fun _ => ⟨.failed, some "boom"⟩) =
      .error ("Run failed: " ++ "boom") ∧
      strIncludes ("Run failed: " ++ "boom") "boom" = true) ∧
    waitForRunCompletion (fun _ => ⟨.queued, none⟩) = .error "Run timed out" := by
  have h1 := waitForRunCompletion_outcomes (fun _ => ⟨.failed, some "boom"⟩) 0
    (fun j hj => absurd hj (Nat.not_lt_zero j))
  have h2 := waitForRunCompletion_outcomes (fun _ => ⟨.queued, none⟩) 0
    (fun j hj => absurd hj (Nat.not_lt_zero j))
  have hmax : 0 < maxPolls := by norm_num [maxPolls, timeoutMs, pollIntervalMs]
  refine ⟨⟨((h1.1 hmax).1 rfl).1, ((h1.1 hmax).1 rfl).2 "boom" rfl⟩, ?_⟩
  exact h2.2 (fun j _ => rfl)

/-- C3 counterexample: a run that is reported `cancelled` with a vendor
error message raises the fixed string `"Run was cancelled"`, which does not
carry the vendor message — refuting "for every non-completed terminal
state … an error carrying the vendor's message". -/
theorem waitForRunCompletion_cancelled_drops_vendor_message :
    waitForRunCompletion (fun _ => ⟨.cancelled, some "vendor reason"⟩) =
      .error "Run was cancelled" ∧
    strIncludes "Run was cancelled" "vendor reason" = false := by
  constructor
  · rfl
  · decide

/-- C4 (amended): every created task has status `pending`, priority
defaulting to `medium` and category to `development` when omitted, and an
identifier no other record of the resulting registry carries; a task
created without a (truthy) parent identifier appears in the unfiltered
`listTasks` result — one created *with* a parent identifier does not (see
the counterexample). -/
theorem createTask_spec (now : Nat) (newId : String) (p : CreateTaskParams) (tasks : TaskStore) :
    ((createTask now newId p tasks).1.core.status = .pending) ∧
    (p.priority = none → (createTask now newId p tasks).1.core.priority = .medium) ∧
    (p.category = none → (createTask now newId p tasks).1.core.category = .development) ∧
    (WellKeyed tasks →
      ∀ e ∈ (createTask now newId p tasks).2, e.1 ≠ newId →
        (Task.core e.2).id ≠ (createTask now newId p tasks).1.core.id) ∧
    (truthyStrOpt p.parentTaskId = false →
      (createTask now newId p tasks).1 ∈ listTasks {} (createTask now newId p tasks).2) := by
  have hfst := createTask_fst now newId p tasks
  refine ⟨?_, ?_, ?_, ?_, ?_⟩
  · simp [hfst, Task.core]
  · intro h
    simp [hfst, Task.core, h]
  · intro h
    simp [hfst, Task.core, h]
  · intro hW
    have hWall : WellKeyed (createTask now newId p tasks).2 := by
      unfold createTask
      cases hp : p.parentTaskId with
      | none =>
        dsimp only
        refine wellKeyed_setEntry tasks newId _ hW ?_
        simp [Task.core]
      | some pid =>
        dsimp only
        by_cases hpe : pid = ""
        · rw [if_pos hpe]
          refine wellKeyed_setEntry tasks newId _ hW ?_
          simp [Task.core]
        · rw [if_neg hpe]
          split
          next parent heq =>
            dsimp only
            have h1 : WellKeyed (setEntry tasks newId (createTask now newId p tasks).1) :=
              wellKeyed_setEntry tasks newId _ hW (by simp [hfst, Task.core])
            rw [hfst] at h1
            rw [hp] at h1
            refine wellKeyed_setEntry _ pid _ h1 ?_
            have hpid := wellKeyed_getEntry _ pid parent h1 heq
            cases parent with
            | mk pc => simpa [Task.core] using hpid
          next heq =>
            dsimp only
            refine wellKeyed_setEntry tasks newId _ hW ?_
            simp [Task.core]
    intro e he hne
    have hid := hWall e he
    have hretid : (createTask now newId p tasks).1.core.id = newId := by
      simp [hfst, Task.core]
    rw [hretid, hid]
    exact hne
  · intro htop
    have hsame : (createTask now newId p tasks).2 = setEntry tasks newId (createTask now newId p tasks).1 := by
      cases hp : p.parentTaskId with
      | none => simp [createTask, hp]
      | some pid =>
        have hpe : pid = "" := by
          by_contra hc
          simp [truthyStrOpt, hp, hc] at htop
        simp [createTask, hp, hpe]
    have hpar : truthyStrOpt (Task.core (createTask now newId p tasks).1).parentTaskId = false := by
      have hp2 : (Task.core (createTask now newId p tasks).1).parentTaskId = p.parentTaskId := by
        simp [hfst, Task.core]
      rw [hp2]
      exact htop
    exact mem_listTasks_no_filters _ _ (hsame ▸ mem_valuesOf_setEntry tasks newId _) hpar

/-- Witness for C4 at a concrete parameterless creation into an empty
registry. -/
theorem createTask_spec_witness :
    ((createTask 3 "n1" { title := "a", description := "b" } []).1.core.priority = .medium) ∧
    ((createTask 3 "n1" { title := "a", description := "b" } []).1.core.category = .development) ∧
    (∀ e ∈ (createTask 3 "n1" { title := "a", description := "b" } []).2, e.1 ≠ "n1" →
      (Task.core e.2).id ≠ (createTask 3 "n1" { title := "a", description := "b" } []).1.core.id) ∧
    ((createTask 3 "n1" { title := "a", description := "b" } []).1 ∈
      listTasks {} (createTask 3 "n1" { title := "a", description := "b" } []).2) := by
  have h := createTask_spec 3 "n1" { title := "a", description := "b" } []
  exact ⟨h.2.1 rfl, h.2.2.1 rfl, h.2.2.2.1 (fun e he => by simp at he), h.2.2.2.2 rfl⟩

/-- C4 counterexample: a task created with a parent identifier is filtered
out of the unfiltered `listTasks` result (the listing drops every record
with a truthy `parentTaskId`), refuting "the newly created task appears in
the result of listTasks called with no filters" for *every* call. -/
theorem createTask_parented_missing_from_list :
    (createTask 0 "t1" { title := "a", description := "b", parentTaskId := some "p" } []).1 ∉
      listTasks {} (createTask 0 "t1" { title := "a", description := "b", parentTaskId := some "p" } []).2 := by
  have h : listTasks {}
      (createTask 0 "t1" { title := "a", description := "b", parentTaskId := some "p" } []).2 = [] := rfl
  rw [h]
  exact List.not_mem_nil _

/-- C9 (amended): a task created with a nonempty parent identifier that
refers to an existing registry entry (under a different key than the new
task) is stored both standalone under its own identifier and nested inside
the parent record's `subtasks` list; when the parent identifier does not
resolve, only the standalone copy is stored (see the counterexample). -/
theorem createTask_parent_nesting (now : Nat) (newId : String) (p : CreateTaskParams)
    (tasks : TaskStore) (pid : String) (parent : Task)
    (hpid : p.parentTaskId = some pid) (hne : pid ≠ "") (hnid : pid ≠ newId)
    (hget : getEntry tasks pid = some parent) :
    getEntry (createTask now newId p tasks).2 newId = some (createTask now newId p tasks).1 ∧
    ∃ parent2, getEntry (createTask now newId p tasks).2 pid = some parent2 ∧
      (createTask now newId p tasks).1 ∈ (Task.core parent2).subtasks.getD [] := by
  have hfst := createTask_fst now newId p tasks
  have hget1 : getEntry (setEntry tasks newId
      (createTask now newId p tasks).1) pid = some parent := by
    rw [getEntry_setEntry_ne tasks newId pid _ (fun hc => hnid hc.symm)]
    exact hget
  rw [hfst] at hget1
  rw [hpid] at hget1
  cases parent with
  | mk pc =>
    unfold createTask
    rw [hpid]
    dsimp only
    rw [if_neg hne]
    rw [hget1]
    dsimp only
    refine ⟨?_, ⟨_, getEntry_setEntry_self _ pid _, ?_⟩⟩
    · rw [getEntry_setEntry_ne _ pid newId _ hnid]
      exact getEntry_setEntry_self tasks newId _
    · simp [Task.core]

/-- Witness for C9: creating a child under an existing parent stores it
standalone and nested. -/
theorem createTask_parent_nesting_witness :
    getEntry (createTask 7 "c9" { title := "a", description := "b", parentTaskId := some "a1" }
      [("a1", sampleTask)]).2 "c9" =
      some (createTask 7 "c9" { title := "a", description := "b", parentTaskId := some "a1" }
        [("a1", sampleTask)]).1 ∧
    ∃ parent2, getEntry (createTask 7 "c9"
        { title := "a", description := "b", parentTaskId := some "a1" }
        [("a1", sampleTask)]).2 "a1" = some parent2 ∧
      (createTask 7 "c9" { title := "a", description := "b", parentTaskId := some "a1" }
        [("a1", sampleTask)]).1 ∈ (Task.core parent2).subtasks.getD [] := by
  exact createTask_parent_nesting 7 "c9" _ [("a1", sampleTask)] "a1" sampleTask rfl
    (by decide) (by decide) rfl

/-- C9 counterexample: a task created with a parent identifier that is
absent from the registry is stored standalone only — no stored record
holds it in a `subtasks` list — refuting "for every task created with a
parent task identifier … nested inside the parent's subtasks list". -/
theorem createTask_missing_parent_not_nested :
    ((createTask 0 "c1" { title := "a", description := "b", parentTaskId := some "missing" }
        []).2.all (fun e => ((Task.core e.2).subtasks.getD []).isEmpty)) = true ∧
    getEntry (createTask 0 "c1"
      { title := "a", description := "b", parentTaskId := some "missing" } []).2 "missing" =
      none := by
  constructor <;> rfl

/-- C5 (amended): for every status filter and every priority filter,
`listTasks` returns exactly the matching subset of the stored *top-level*
tasks (records with a truthy `parentTaskId` are always dropped — see the
counterexample), as a permutation sorted by priority rank (critical before
high before medium before low) with ties broken by descending creation
time. -/
theorem listTasks_filter_spec (s : TaskStore) (st : TaskStatus) (pr : TaskPriority) :
    (List.Perm (listTasks { status := some (.only st) } s)
      ((valuesOf s).filter (fun t =>
        decide ((Task.core t).status = st) && !truthyStrOpt (Task.core t).parentTaskId)) ∧
      List.Sorted taskLE (listTasks { status := some (.only st) } s)) ∧
    (List.Perm (listTasks { priority := some pr } s)
      ((valuesOf s).filter (fun t =>
        decide ((Task.core t).priority = pr) && !truthyStrOpt (Task.core t).parentTaskId)) ∧
      List.Sorted taskLE (listTasks { priority := some pr } s)) := by
  constructor
  · constructor
    · unfold listTasks
      simp only [List.filter_filter]
      exact List.perm_insertionSort taskLE _
    · unfold listTasks
      exact List.sorted_insertionSort taskLE _
  · constructor
    · unfold listTasks
      simp only [List.filter_filter]
      exact List.perm_insertionSort taskLE _
    · unfold listTasks
      exact List.sorted_insertionSort taskLE _

/-- C7 (amended): `findSimilarLearnings` returns only entries whose
lowercased pattern contains at least one whitespace-split token of the
lowercased query as a *substring* (not necessarily as a whole word — see
the counterexample), ranked by descending raw match count (the number of
query tokens contained in the entry), and returns at most `limit` entries;
the matching is purely lexical. -/
theorem findSimilarLearnings_eq (pattern : String) (limit : Nat) (learnings : LearnMap) :
    findSimilarLearnings pattern limit learnings =
      (((((valuesOf learnings).map
        (fun e => (e, matchScore (jsSplitWs (toLowerStr pattern)) e))).filter
          (fun x => decide (0 < x.2))).insertionSort scoreGE).take limit).map Prod.fst := rfl

theorem findSimilarLearnings_spec (pattern : String) (limit : Nat) (learnings : LearnMap) :
    (∀ e ∈ findSimilarLearnings pattern limit learnings,
      ∃ w ∈ jsSplitWs (toLowerStr pattern), strIncludes (toLowerStr e.pattern) w = true) ∧
    (findSimilarLearnings pattern limit learnings).length ≤ limit ∧
    List.Sorted (fun a b => matchScore (jsSplitWs (toLowerStr pattern)) b ≤
        matchScore (jsSplitWs (toLowerStr pattern)) a)
      (findSimilarLearnings pattern limit learnings) := by
  have hmempairs : ∀ x ∈ (((valuesOf learnings).map
        (fun e => (e, matchScore (jsSplitWs (toLowerStr pattern)) e))).filter
          (fun x => decide (0 < x.2))).insertionSort scoreGE,
      x.2 = matchScore (jsSplitWs (toLowerStr pattern)) x.1 ∧ 0 < x.2 := by
    intro x hx
    rw [(List.perm_insertionSort scoreGE _).mem_iff] at hx
    rw [List.mem_filter] at hx
    obtain ⟨hx1, hx2⟩ := hx
    obtain ⟨e, _, rfl⟩ := List.mem_map.mp hx1
    exact ⟨rfl, by simpa using hx2⟩
  refine ⟨?_, ?_, ?_⟩
  · intro e he
    rw [findSimilarLearnings_eq] at he
    obtain ⟨x, hx, rfl⟩ := List.mem_map.mp he
    have hx2 := hmempairs x ((List.take_sublist _ _).mem hx)
    have hscore : 0 < matchScore (jsSplitWs (toLowerStr pattern)) x.1 := hx2.1 ▸ hx2.2
    unfold matchScore at hscore
    obtain ⟨w, hw, hinc⟩ := List.countP_pos_iff.mp hscore
    exact ⟨w, hw, hinc⟩
  · rw [findSimilarLearnings_eq]
    rw [List.length_map]
    exact List.length_take_le _ _
  · rw [findSimilarLearnings_eq, List.Sorted, List.pairwise_map]
    have hs : List.Pairwise scoreGE ((((valuesOf learnings).map
        (fun e => (e, matchScore (jsSplitWs (toLowerStr pattern)) e))).filter
          (fun x => decide (0 < x.2))).insertionSort scoreGE) :=
      List.sorted_insertionSort scoreGE _
    have htake := List.Pairwise.sublist (List.take_sublist limit _) hs
    refine List.Pairwise.imp_of_mem ?_ htake
    intro a b ha hb hab
    have ha2 := hmempairs a ((List.take_sublist _ _).mem ha)
    have hb2 := hmempairs b ((List.take_sublist _ _).mem hb)
    rw [← ha2.1, ← hb2.1]
    exact hab

/-- Witness for C7: the returned entry of a concrete query does contain a
query token, and the result respects the limit. -/
theorem findSimilarLearnings_spec_witness :
    (∃ w ∈ jsSplitWs (toLowerStr "cat"),
      strIncludes (toLowerStr concatEntry.pattern) w = true) ∧
    (findSimilarLearnings "cat" 5 concatStore).length ≤ 5 := by
  have h := findSimilarLearnings_spec "cat" 5 concatStore
  refine ⟨h.1 concatEntry ?_, h.2.1⟩
  have hres : findSimilarLearnings "cat" 5 concatStore = [concatEntry] := rfl
  rw [hres]
  exact List.mem_singleton.mpr rfl

/-- C7 counterexample: for the query `"cat"` the entry with pattern
`"concatenate"` is returned — `"cat"` is a substring of `"concatenate"` —
although the entry shares no whole (whitespace-delimited) word with the
query, refuting "returns only entries whose stored pattern text shares a
whole word with the query". -/
theorem findSimilarLearnings_returns_non_whole_word_match :
    findSimilarLearnings "cat" 5 concatStore = [concatEntry] ∧
    (∀ w ∈ jsSplitWs (toLowerStr "cat"),
      ∀ w2 ∈ jsSplitWs (toLowerStr concatEntry.pattern), w ≠ w2) :=
  ⟨rfl, by decide⟩

/-- C5 counterexample: a stored subtask matching the status filter is
omitted from the `listTasks` result, so the result is not "exactly the
subset of stored tasks whose corresponding field equals the filter
value". -/
theorem listTasks_omits_matching_subtask :
    listTasks { status := some (.only .pending) } sampleSubtaskStore = [] ∧
    ((valuesOf sampleSubtaskStore).filter
      (fun t => decide ((Task.core t).status = .pending))).length = 1 := by
  constructor <;> rfl

/-! ## Date serialization round trip -/

theorem charToDigit_digitToChar (d : Nat) (h : d < 10) : charToDigit (digitToChar d) = d := by
  interval_cases d <;> rfl

theorem parseDigits_append (l : List Char) (c : Char) :
    parseDigits (l ++ [c]) = parseDigits l * 10 + charToDigit c := by
  simp [parseDigits, List.foldl_append]

theorem parseDigits_natDigitsLE (fuel : Nat) :
    ∀ n, n < fuel → parseDigits ((natDigitsLE fuel n).reverse) = n := by
  induction fuel with
  | zero => intro n h; omega
  | succ f ih =>
    intro n h
    by_cases h0 : n = 0
    · simp [natDigitsLE, h0, parseDigits]
    · rw [natDigitsLE, if_neg h0, List.reverse_cons, parseDigits_append]
      have hm : n % 10 < 10 := Nat.mod_lt _ (by norm_num)
      have hd : n / 10 < n := Nat.div_lt_self (by omega) (by norm_num)
      rw [ih (n / 10) (by omega), charToDigit_digitToChar _ hm]
      omega

theorem parseDateString_dateToString (n : Nat) :
    parseDateString (dateToString n) = n := by
  by_cases h : n = 0
  · rw [h]; rfl
  · rw [dateToString, if_neg h]
    exact parseDigits_natDigitsLE (n + 1) n (by omega)

theorem dateToString_ne_empty (n : Nat) : dateToString n ≠ "" := by
  by_cases h : n = 0
  · rw [h]; decide
  · rw [dateToString, if_neg h]
    intro hc
    have hl : (natDigitsLE (n + 1) n).reverse = [] := congrArg String.data hc
    rw [List.reverse_eq_nil_iff] at hl
    rw [natDigitsLE, if_neg h] at hl
    exact List.cons_ne_nil _ _ hl

theorem dvParse_dvSer (v : DateVal) (h : dvIsNum v = true) : dvParse (dvSer v) = v := by
  cases v with
  | num n => simp [dvSer, dvParse, parseDateString_dateToString]
  | raw s => simp [dvIsNum] at h

theorem dvParse_dvParse (v : DateVal) : dvParse (dvParse v) = dvParse v := by
  cases v <;> rfl

theorem dvTruthy_dvSer_num (n : Nat) : dvTruthy (dvSer (.num n)) = true := by
  simp [dvSer, dvTruthy, dateToString_ne_empty n]

/-! ## Serialization and reparsing of task records -/

theorem serTask_id (t : Task) : (Task.core (serTask t)).id = (Task.core t).id := by
  cases t with
  | mk c =>
    obtain ⟨i, ti, de, st, pr, ca, cr, up, co, par, sub, dep, res⟩ := c
    cases sub <;> simp [serTask, Task.core]

theorem reviveTaskDates_id (t : Task) :
    (Task.core (reviveTaskDates t)).id = (Task.core t).id := by
  cases t with
  | mk c => simp [reviveTaskDates, Task.core]

theorem reparse_revive (x : Task) :
    reparseDatesTask (reviveTaskDates x) = reparseDatesTask x := by
  cases x with
  | mk c =>
    obtain ⟨i, ti, de, st, pr, ca, cr, up, co, par, sub, dep, res⟩ := c
    cases sub <;> cases co <;>
      simp [reviveTaskDates, reparseDatesTask, dvParse_dvParse] <;>
      split_ifs <;>
      simp [dvParse_dvParse]

mutual
theorem reparse_serTask (t : Task) (h : datesNumericTask t = true) :
    reparseDatesTask (serTask t) = t := by
  cases t with
  | mk c =>
    obtain ⟨i, ti, de, st, pr, ca, cr, up, co, par, sub, dep, res⟩ := c
    cases sub with
    | none =>
      simp only [datesNumericTask, Bool.and_eq_true] at h
      cases co with
      | none =>
        simp [serTask, reparseDatesTask, dvParse_dvSer _ h.1.1, dvParse_dvSer _ h.1.2]
      | some v =>
        simp [serTask, reparseDatesTask, dvParse_dvSer _ h.1.1, dvParse_dvSer _ h.1.2,
          dvParse_dvSer _ h.2]
    | some l =>
      simp only [datesNumericTask, Bool.and_eq_true] at h
      have hl := reparse_serTaskList l h.2
      cases co with
      | none =>
        simp [serTask, reparseDatesTask, dvParse_dvSer _ h.1.1.1, dvParse_dvSer _ h.1.1.2, hl]
      | some v =>
        simp [serTask, reparseDatesTask, dvParse_dvSer _ h.1.1.1, dvParse_dvSer _ h.1.1.2,
          dvParse_dvSer _ h.1.2, hl]
theorem reparse_serTaskList (l : List Task) (h : datesNumericList l = true) :
    reparseDatesList (serTaskList l) = l := by
  cases l with
  | nil => rfl
  | cons t ts =>
    simp only [datesNumericList, Bool.and_eq_true] at h
    simp [serTaskList, reparseDatesList, reparse_serTask t h.1, reparse_serTaskList ts h.2]
end

theorem reparse_revive_serTask (t : Task) (h : datesNumericTask t = true) :
    reparseDatesTask (reviveTaskDates (serTask t)) = t := by
  rw [reparse_revive, reparse_serTask t h]

theorem reviveLearning_serLearning (e : LearningEntry) (h : dvIsNum e.timestamp = true) :
    reviveLearning (serLearning e) = e := by
  obtain ⟨i, ts, tid, pat, oc, fb, im⟩ := e
  simp [serLearning, reviveLearning, dvParse_dvSer _ h]

/-! ## Import loop lemmas -/

theorem setEntry_append_of_not_mem {α : Type} (done l : List (String × α)) (k : String) (v : α)
    (h : k ∉ done.map Prod.fst) : setEntry (done ++ l) k v = done ++ setEntry l k v := by
  induction done with
  | nil => simp
  | cons e d ih =>
    obtain ⟨k', v'⟩ := e
    simp only [List.map_cons, List.mem_cons] at h
    push_neg at h
    simp only [List.cons_append, setEntry, if_neg (Ne.symm h.1), List.append_eq]
    rw [ih h.2]

theorem importTasksGo_roundtrip (todo : TaskStore) :
    ∀ (done : TaskStore) (n : Nat),
      NodupKeys (done ++ todo) → WellKeyed todo →
      importTasksGo ((valuesOf todo).map (fun v => JsonItem.obj (serTask v))) (done ++ todo) n =
        (done ++ todo.map (fun e => (e.1, reviveTaskDates (serTask e.2))), n + todo.length) := by
  induction todo with
  | nil =>
    intro done n _ _
    simp [valuesOf, importTasksGo]
  | cons kv rest ih =>
    obtain ⟨k, v⟩ := kv
    intro done n hN hW
    have hid : (Task.core (reviveTaskDates (serTask v))).id = k := by
      rw [reviveTaskDates_id, serTask_id]
      exact hW (k, v) (by simp)
    have hN' : (done.map Prod.fst ++ k :: rest.map Prod.fst).Nodup := by
      simpa [NodupKeys] using hN
    have hdisj := List.disjoint_of_nodup_append hN'
    have hkdone : k ∉ done.map Prod.fst := fun hk => hdisj hk (by simp)
    have hstep : setEntry (done ++ (k, v) :: rest) k (reviveTaskDates (serTask v)) =
        done ++ (k, reviveTaskDates (serTask v)) :: rest := by
      rw [setEntry_append_of_not_mem _ _ _ _ hkdone]
      simp [setEntry]
    have hN2 : NodupKeys ((done ++ [(k, reviveTaskDates (serTask v))]) ++ rest) := by
      simpa [NodupKeys] using hN'
    have hW2 : WellKeyed rest := fun e he => hW e (by simp [he])
    have hrec := ih (done ++ [(k, reviveTaskDates (serTask v))]) (n + 1) hN2 hW2
    show importTasksGo (JsonItem.obj (serTask v) :: (valuesOf rest).map _) _ n = _
    rw [importTasksGo]
    rw [hid, hstep]
    rw [show done ++ (k, reviveTaskDates (serTask v)) :: rest =
      (done ++ [(k, reviveTaskDates (serTask v))]) ++ rest by simp]
    rw [hrec]
    refine Prod.ext ?_ ?_
    · simp
    · simp
      omega

theorem importLearningsGo_roundtrip (todo : LearnMap) :
    ∀ (done : LearnMap) (n : Nat),
      NodupKeys (done ++ todo) → WellKeyedL todo →
      importLearningsGo ((valuesOf todo).map (fun e => JsonItem.obj (serLearning e)))
          (done ++ todo) n =
        (done ++ todo.map (fun e => (e.1, reviveLearning (serLearning e.2))),
         n + todo.length, true) := by
  induction todo with
  | nil =>
    intro done n _ _
    simp [valuesOf, importLearningsGo]
  | cons kv rest ih =>
    obtain ⟨k, v⟩ := kv
    intro done n hN hW
    have hid : (reviveLearning (serLearning v)).id = k := hW (k, v) (by simp)
    have hN' : (done.map Prod.fst ++ k :: rest.map Prod.fst).Nodup := by
      simpa [NodupKeys] using hN
    have hdisj := List.disjoint_of_nodup_append hN'
    have hkdone : k ∉ done.map Prod.fst := fun hk => hdisj hk (by simp)
    have hstep : setEntry (done ++ (k, v) :: rest) k (reviveLearning (serLearning v)) =
        done ++ (k, reviveLearning (serLearning v)) :: rest := by
      rw [setEntry_append_of_not_mem _ _ _ _ hkdone]
      simp [setEntry]
    have hN2 : NodupKeys ((done ++ [(k, reviveLearning (serLearning v))]) ++ rest) := by
      simpa [NodupKeys] using hN'
    have hW2 : WellKeyedL rest := fun e he => hW e (by simp [he])
    have hrec := ih (done ++ [(k, reviveLearning (serLearning v))]) (n + 1) hN2 hW2
    show importLearningsGo (JsonItem.obj (serLearning v) :: (valuesOf rest).map _) _ n = _
    rw [importLearningsGo]
    rw [hid, hstep]
    rw [show done ++ (k, reviveLearning (serLearning v)) :: rest =
      (done ++ [(k, reviveLearning (serLearning v))]) ++ rest by simp]
    rw [hrec]
    refine Prod.ext ?_ ?_
    · simp
    · refine Prod.ext ?_ ?_
      · simp
        omega
      · rfl

/-- C1: re-importing an exported registry reproduces the same records: the
reported count equals the registry size; the task registry after
`importTasks(exportTasks())` equals the original once every date field is
reparsed from its serialized string form (`reparseDatesTask` — the
top-level date fields are already reparsed by the import itself, nested
subtask dates only by the normalization); the learning registry after
`importLearnings(exportLearnings())` is identical to the original, with
the same identifiers and field values. -/
theorem export_import_roundtrip (tasks : TaskStore) (ls : LearnState) (nowE nowI : Nat)
    (hN : NodupKeys tasks) (hW : WellKeyed tasks)
    (hD : ∀ e ∈ tasks, datesNumericTask e.2 = true)
    (hNl : NodupKeys ls.learnings) (hWl : WellKeyedL ls.learnings)
    (hDl : ∀ e ∈ ls.learnings, dvIsNum e.2.timestamp = true) :
    ((importTasks (some ((exportTasks tasks).map JsonItem.obj)) tasks).2 = tasks.length ∧
      (importTasks (some ((exportTasks tasks).map JsonItem.obj)) tasks).1.map
        (fun e => (e.1, reparseDatesTask e.2)) = tasks) ∧
    ((importLearnings nowI (some {
        learnings := some ((exportLearnings nowE ls).learnings.map JsonItem.obj)
        metrics := some ((exportLearnings nowE ls).metrics) }) ls).2 = ls.learnings.length ∧
      (importLearnings nowI (some {
        learnings := some ((exportLearnings nowE ls).learnings.map JsonItem.obj)
        metrics := some ((exportLearnings nowE ls).metrics) }) ls).1.learnings =
        ls.learnings) := by
  have hitems : (exportTasks tasks).map JsonItem.obj =
      (valuesOf tasks).map (fun v => JsonItem.obj (serTask v)) := by
    simp [exportTasks, List.map_map, Function.comp]
  have htasks := importTasksGo_roundtrip tasks [] 0 (by simpa using hN) hW
  simp only [List.nil_append, Nat.zero_add] at htasks
  have hTmain : importTasks (some ((exportTasks tasks).map JsonItem.obj)) tasks =
      (tasks.map (fun e => (e.1, reviveTaskDates (serTask e.2))), tasks.length) := by
    rw [importTasks, hitems, htasks]
  have hlitems : (exportLearnings nowE ls).learnings.map JsonItem.obj =
      (valuesOf ls.learnings).map (fun e => JsonItem.obj (serLearning e)) := by
    simp [exportLearnings, List.map_map, Function.comp]
  have hlearn := importLearningsGo_roundtrip ls.learnings [] 0 (by simpa using hNl) hWl
  simp only [List.nil_append, Nat.zero_add] at hlearn
  have hlmap : ls.learnings.map (fun e => (e.1, reviveLearning (serLearning e.2))) =
      ls.learnings := by
    have hcong : ∀ e ∈ ls.learnings,
        (e.1, reviveLearning (serLearning e.2)) = id e := by
      intro e he
      rw [reviveLearning_serLearning e.2 (hDl e he)]
      simp
    rw [List.map_congr_left hcong, List.map_id]
  have hLmain : importLearnings nowI (some {
      learnings := some ((exportLearnings nowE ls).learnings.map JsonItem.obj)
      metrics := some ((exportLearnings nowE ls).metrics) }) ls =
      ({ learnings := ls.learnings,
         metrics := { (exportLearnings nowE ls).metrics with lastActiveAt := .num nowI } },
       ls.learnings.length) := by
    rw [importLearnings]
    dsimp only
    rw [hlitems, hlearn, hlmap]
    rfl
  refine ⟨⟨?_, ?_⟩, ?_, ?_⟩
  · rw [hTmain]
  · rw [hTmain]
    simp only [List.map_map]
    have hcong : ∀ e ∈ tasks,
        ((fun e : String × Task => (e.1, reparseDatesTask e.2)) ∘
          fun e : String × Task => (e.1, reviveTaskDates (serTask e.2))) e = id e := by
      intro e he
      simp only [Function.comp]
      rw [reparse_revive_serTask e.2 (hD e he)]
      simp
    rw [List.map_congr_left hcong, List.map_id]
  · rw [hLmain]
  · rw [hLmain]

/-- Witness for C1 at a concrete registry holding a parent task with a
nested subtask, a completion date, and one learning entry. -/
theorem export_import_roundtrip_witness :
    ((importTasks (some ((exportTasks sampleStore).map JsonItem.obj)) sampleStore).2 = 2 ∧
      (importTasks (some ((exportTasks sampleStore).map JsonItem.obj)) sampleStore).1.map
        (fun e => (e.1, reparseDatesTask e.2)) = sampleStore) ∧
    ((importLearnings 11 (some {
        learnings := some ((exportLearnings 10 sampleLearnState).learnings.map JsonItem.obj)
        metrics := some ((exportLearnings 10 sampleLearnState).metrics) })
        sampleLearnState).2 = 1 ∧
      (importLearnings 11 (some {
        learnings := some ((exportLearnings 10 sampleLearnState).learnings.map JsonItem.obj)
        metrics := some ((exportLearnings 10 sampleLearnState).metrics) })
        sampleLearnState).1.learnings = sampleLearnState.learnings) :=
  export_import_roundtrip sampleStore sampleLearnState 10 11
    (by unfold NodupKeys; decide) (by unfold WellKeyed; decide) (by decide)
    (by unfold NodupKeys; decide) (by unfold WellKeyedL; decide) (by decide)

theorem importTasksGo_obj_malformed (rest : List (JsonItem Task)) (pre : List Task) :
    ∀ (s : TaskStore) (n : Nat),
      importTasksGo (pre.map JsonItem.obj ++ JsonItem.malformed :: rest) s n =
        ((importTasksGo (pre.map JsonItem.obj) s n).1, 0) := by
  induction pre with
  | nil => intro s n; rfl
  | cons t ts ih =>
    intro s n
    simp only [List.map_cons, List.cons_append]
    exact ih _ _

theorem importLearningsGo_obj_malformed (restL : List (JsonItem LearningEntry))
    (preL : List LearningEntry) :
    ∀ (s : LearnMap) (n : Nat),
      importLearningsGo (preL.map JsonItem.obj ++ JsonItem.malformed :: restL) s n =
        ((importLearningsGo (preL.map JsonItem.obj) s n).1, 0, false) := by
  induction preL with
  | nil => intro s n; rfl
  | cons e es ih =>
    intro s n
    simp only [List.map_cons, List.cons_append]
    exact ih _ _

/-- C8 (amended): a payload `JSON.parse` rejects is silently discarded —
zero imported records and an unchanged registry — for both `importTasks`
and `importLearnings`; a payload of the wrong shape (an iterable whose
element is not a record) also reports zero imported records, and for
`importLearnings` the metrics assignment is skipped, but the records
preceding the first malformed element *are* imported, so the registry is
not left unchanged (see the counterexample). -/
theorem import_malformed_payloads (s : TaskStore) (ls : LearnState) (now : Nat)
    (pre : List Task) (rest : List (JsonItem Task))
    (preL : List LearningEntry) (restL : List (JsonItem LearningEntry))
    (mp : Option AgentMetrics) :
    importTasks none s = (s, 0) ∧
    importLearnings now none ls = (ls, 0) ∧
    importTasks (some (pre.map JsonItem.obj ++ JsonItem.malformed :: rest)) s =
      ((importTasks (some (pre.map JsonItem.obj)) s).1, 0) ∧
    (importLearnings now (some {
        learnings := some (preL.map JsonItem.obj ++ JsonItem.malformed :: restL)
        metrics := mp }) ls).2 = 0 ∧
    (importLearnings now (some {
        learnings := some (preL.map JsonItem.obj ++ JsonItem.malformed :: restL)
        metrics := mp }) ls).1.metrics = ls.metrics ∧
    (importLearnings now (some {
        learnings := some (preL.map JsonItem.obj ++ JsonItem.malformed :: restL)
        metrics := mp }) ls).1.learnings =
      (importLearnings now (some {
        learnings := some (preL.map JsonItem.obj)
        metrics := none }) ls).1.learnings := by
  have hgo := importLearningsGo_obj_malformed restL preL ls.learnings 0
  rcases hre : importLearningsGo (preL.map JsonItem.obj) ls.learnings 0 with ⟨lm, n2, ok⟩
  rw [hre] at hgo
  refine ⟨rfl, rfl, importTasksGo_obj_malformed rest pre s 0, ?_, ?_, ?_⟩
  · simp only [importLearnings, hgo]
    rfl
  · simp only [importLearnings, hgo]
    rfl
  · simp only [importLearnings, hgo, hre]
    cases ok <;> rfl

/-- C8 counterexample: the payload `[<valid task record>, null]` is valid
JSON of the wrong shape; importing it into an empty registry reports zero
imported records yet leaves the registry *changed* (the valid prefix
record was stored), refuting "silently discard it … and leave the
corresponding registry unchanged". -/
theorem importTasks_malformed_payload_mutates :
    (importTasks (some [JsonItem.obj sampleTask, JsonItem.malformed]) []).2 = 0 ∧
    (importTasks (some [JsonItem.obj sampleTask, JsonItem.malformed]) []).1 ≠ [] := by
  refine ⟨rfl, fun h => absurd (congrArg List.length h) (by decide)⟩

/-! ## processMessage -/

theorem processFailure_spec (now : Nat) (newLearnId : String) (userMessage e : String)
    (sess1 : SessionState) (ls : LearnState) :
    (processFailure now newLearnId userMessage e sess1 ls).1 =
      "❌ Fehler bei der Verarbeitung: " ++ e ∧
    (processFailure now newLearnId userMessage e sess1 ls).2.1.status = .error ∧
    getEntry (processFailure now newLearnId userMessage e sess1 ls).2.2.learnings newLearnId =
      some {
        id := newLearnId, timestamp := .num now, taskId := "error"
        pattern := "Fehler bei Verarbeitung: " ++ strTake userMessage 50
        outcome := .failure, feedback := some e
        improvement := some "Bessere Fehlerbehandlung für diese Art von Anfrage" } := by
  refine ⟨rfl, rfl, ?_⟩
  exact getEntry_setEntry_self _ _ _

/-- C2 (amended): failures raised inside the `try` block of
`processMessage` (the run start, the run polling, or the response fetch —
everything after the user message has been appended to the thread) are
caught: a learning entry with outcome `failure` is recorded under the
fresh learning id and a formatted error string is returned instead of an
exception; a failure in the message append itself, which the `try` block
does not cover, propagates as an exception (see the counterexample). -/
theorem processMessage_try_failure_caught (env : RemoteEnv) (now : Nat) (durationMs : ℚ)
    (newLearnId : String) (userMessage : String) (sess : SessionState) (ls : LearnState)
    (userMsg : ChatMsg) (e : String)
    (hadd : env.addMessage = .ok userMsg) (hfail : tryPhaseFails env e) :
    ∃ sess2 ls2,
      processMessage env now durationMs newLearnId userMessage sess ls =
        .ok ("❌ Fehler bei der Verarbeitung: " ++ e, sess2, ls2) ∧
      getEntry ls2.learnings newLearnId = some {
        id := newLearnId, timestamp := .num now, taskId := "error"
        pattern := "Fehler bei Verarbeitung: " ++ strTake userMessage 50
        outcome := .failure, feedback := some e
        improvement := some "Bessere Fehlerbehandlung für diese Art von Anfrage" } ∧
      sess2.status = .error := by
  obtain ⟨hf1, hf2, hf3⟩ := processFailure_spec now newLearnId userMessage e
    { sess with messages := sess.messages ++ [userMsg], status := .processing } ls
  rcases hfail with h1 | ⟨r, hr, h2⟩ | ⟨r, hr, hw, h3⟩
  · refine ⟨_, _, ?_, hf3, hf2⟩
    simp only [processMessage, hadd, h1]
    rw [← hf1]
  · refine ⟨_, _, ?_, hf3, hf2⟩
    simp only [processMessage, hadd, hr, h2]
    rw [← hf1]
  · refine ⟨_, _, ?_, hf3, hf2⟩
    simp only [processMessage, hadd, hr, hw, h3]
    rw [← hf1]

/-- Witness for C2 at a concrete environment whose run start rejects. -/
theorem processMessage_try_failure_witness :
    ∃ sess2 ls2,
      processMessage envRunFails 0 0 "l1" "hallo" ⟨[], .active⟩ ⟨[], sampleMetrics⟩ =
        .ok ("❌ Fehler bei der Verarbeitung: " ++ "kaputt", sess2, ls2) ∧
      getEntry ls2.learnings "l1" = some {
        id := "l1", timestamp := .num 0, taskId := "error"
        pattern := "Fehler bei Verarbeitung: " ++ strTake "hallo" 50
        outcome := .failure, feedback := some "kaputt"
        improvement := some "Bessere Fehlerbehandlung für diese Art von Anfrage" } ∧
      sess2.status = .error :=
  processMessage_try_failure_caught envRunFails 0 0 "l1" "hallo" ⟨[], .active⟩
    ⟨[], sampleMetrics⟩ ⟨"m1", "hi"⟩ "kaputt" rfl (Or.inl rfl)

/-- C2 counterexample: a failure while appending the user message — a
failure that occurs while processing the message, but *before* the `try`
block — propagates as an exception: `processMessage` neither returns a
formatted error string nor records a failure learning, refuting "if any
failure occurs while processing it … returns a formatted error string to
the caller instead of raising an exception". -/
theorem processMessage_addMessage_failure_raises :
    processMessage envAddMessageFails 0 0 "l1" "hallo" ⟨[], .active⟩ ⟨[], sampleMetrics⟩ =
      .error "Netzwerkfehler" := rfl

end NexifyAI
